import Mathlib

/-!
Shallow embedding of the Ad-Rewrite repository's validation-and-repair core
(`src/agent/platform_agent.py` and the style-merge logic of
`src/agent/kg_service.py`), together with theorems settling the claims about
it.  Python strings are modelled as `List Char`; dictionaries with a fixed key
set are modelled as structures with `Option` fields (a missing key is `none`);
external collaborators (knowledge graph, vector store, LLM) are modelled as
oracle functions supplied through an environment record.
-/

set_option maxRecDepth 4000

abbrev Str := List Char

/-- Python `str` whitespace characters (the ASCII ones, which are the only
whitespace characters the claims exercise). -/
def isPySpace (c : Char) : Bool :=
  c = ' ' || c = '\t' || c = '\n' || c = '\x0b' || c = '\x0c' || c = '\r'

/-- The 32 characters of Python `string.punctuation`. -/
def punctuationChars : Str :=
  ['!', Char.ofNat 34, '#', '$', '%', '&', Char.ofNat 39, '(', ')', '*', '+', ',', '-', '.', '/',
   ':', ';', '<', '=', '>', '?', '@', '[', Char.ofNat 92, ']', '^', '_', Char.ofNat 96,
   Char.ofNat 123, '|', Char.ofNat 125, '~']

def isPunct (c : Char) : Bool := punctuationChars.contains c

/-- Python `s.lstrip(chars)` restricted to a character predicate. -/
def lstripWhile (p : Char → Bool) (s : Str) : Str := s.dropWhile p

/-- Python `s.rstrip(chars)` restricted to a character predicate. -/
def rstripWhile (p : Char → Bool) (s : Str) : Str := (s.reverse.dropWhile p).reverse

/-- Python `s.strip(chars)` restricted to a character predicate. -/
def stripWhile (p : Char → Bool) (s : Str) : Str := rstripWhile p (lstripWhile p s)

/-- Python `s.strip()` (whitespace strip). -/
def pyStrip (s : Str) : Str := stripWhile isPySpace s

/-- Python `s.rstrip()` (trailing-whitespace strip). -/
def pyRstrip (s : Str) : Str := rstripWhile isPySpace s

/-- Python `s.strip(string.punctuation)`. -/
def pyStripPunct (s : Str) : Str := stripWhile isPunct s

/-- Python `s.rstrip(string.punctuation)`. -/
def pyRstripPunct (s : Str) : Str := rstripWhile isPunct s

/-- Python `str.lower` on a single character (ASCII case mapping, which covers
every character the profanity list, CTA verbs and claims involve). -/
def pyLower (c : Char) : Char :=
  if 'A' ≤ c && c ≤ 'Z' then Char.ofNat (c.toNat + 32) else c

/-- Helper for `pySplit`: prepend character `c` to the first word of an
already-split suffix (or start a new word when there is none). -/
def consHead (c : Char) : List Str → List Str
  | [] => [[c]]
  | w :: ws => (c :: w) :: ws

/-- Python `s.split()` with no arguments: split on runs of whitespace,
dropping empty pieces.  A non-space character either starts a final
one-character word, stands alone before whitespace, or extends the first word
of the split of the rest. -/
def pySplit : Str → List Str
  | [] => []
  | [c] => if isPySpace c then [] else [[c]]
  | c :: d :: s =>
    if isPySpace c then pySplit (d :: s)
    else if isPySpace d then [c] :: pySplit (d :: s)
    else consHead c (pySplit (d :: s))

/-- Python `" ".join(words)`. -/
def joinSp : List Str → Str
  | [] => []
  | [w] => w
  | w :: ws => w ++ ' ' :: joinSp ws

/-- The issue codes appended by `sanitize_text` and `validate_text`. -/
inductive Issue where
  | PROFANITY_MASKED
  | MAX_LENGTH_EXCEEDED
  | EMOJI_NOT_ALLOWED
  | CTA_MISSING
  | PROFANITY_DETECTED
deriving DecidableEq, Repr

/-- `PROFANITY_LIST = {"damn", "hell", "shit"}` from `platform_agent.py`. -/
def PROFANITY_LIST : List Str := ["damn".toList, "hell".toList, "shit".toList]

/-- Membership test in the profanity set (`clean in PROFANITY_LIST`). -/
def profaneB (w : Str) : Bool := decide (w ∈ PROFANITY_LIST)

/-- `word.strip(string.punctuation).lower()` as computed inside `sanitize_text`. -/
def cleanSan (w : Str) : Str := (pyStripPunct w).map pyLower

/-- `w.lower().strip(string.punctuation)` as computed inside `validate_text`. -/
def cleanVal (w : Str) : Str := pyStripPunct (w.map pyLower)

/-- `word[0] + "*" * max(len(word) - 1, 1)` from `sanitize_text`. -/
def maskWord (w : Str) : Str :=
  match w with
  | [] => []
  | c :: rest => c :: List.replicate (Nat.max rest.length 1) '*'

/-- One word of the `sanitize_text` loop body. -/
def sanitizeWord (w : Str) : Str :=
  if profaneB (cleanSan w) then maskWord w else w

/-- The `for idx, word in enumerate(words)` loop of `sanitize_text`:
masks flagged words in place and appends one `PROFANITY_MASKED` per flagged
word, in word order. -/
def sanitizePass : List Str → List Str × List Issue
  | [] => ([], [])
  | w :: ws =>
    if profaneB (cleanSan w) then
      (maskWord w :: (sanitizePass ws).1, Issue.PROFANITY_MASKED :: (sanitizePass ws).2)
    else (w :: (sanitizePass ws).1, (sanitizePass ws).2)

/-- `sanitize_text` from `platform_agent.py`: strip, split on whitespace, mask
profane words, rejoin with single spaces. -/
def sanitize_text (t : Str) : Str × List Issue :=
  let words := pySplit (pyStrip t)
  let r := sanitizePass words
  (joinSp r.1, r.2)

/-- A regex word character (`\w`): ASCII letters, digits, underscore (the
texts the claims exercise are ASCII). -/
def isWordChar (c : Char) : Bool :=
  ('a' ≤ c && c ≤ 'z') || ('A' ≤ c && c ≤ 'Z') || ('0' ≤ c && c ≤ '9') || c = '_'

/-- `EMOJI_REGEX = re.compile(r"[☺-\U0001f645]")`: a single contiguous
code-point range test. -/
def isEmojiChar (c : Char) : Bool := 0x263a ≤ c.toNat && c.toNat ≤ 0x1f645

/-- The alternation of `CTA_REGEX`, in the source's order. -/
def ctaVerbs : List Str :=
  ["buy".toList, "shop".toList, "order".toList, "get".toList, "book".toList,
   "reserve".toList, "save".toList, "claim".toList]

/-- Whether the character at index `i` (if any) is a word character. -/
def wordCharAt (s : Str) (i : Nat) : Bool := (s.get? i).any isWordChar

/-- The length-`n` slice of `s` starting at index `i`. -/
def sliceAt (s : Str) (i n : Nat) : Str := (s.drop i).take n

/-- `CTA_REGEX` (`\b(buy|shop|order|get|book|reserve|save|claim)\b`,
IGNORECASE) matches verb `v` at position `i` of `s`: the lowercased slice is
`v` and both ends sit on word boundaries (the verb's own characters are word
characters, so a boundary is the absence of an adjacent word character). -/
def ctaMatchAt (s : Str) (i : Nat) (v : Str) : Bool :=
  decide ((sliceAt s i v.length).map pyLower = v) &&
  (decide (i = 0) || !(wordCharAt s (i - 1))) &&
  !(wordCharAt s (i + v.length))

/-- `CTA_REGEX.search(s)`: the leftmost match (first alternative at the first
matching position), returning the matched original-case text (`group(0)`). -/
def findCTA (s : Str) : Option Str :=
  (List.range s.length).findSome? fun i =>
    ctaVerbs.findSome? fun v =>
      if ctaMatchAt s i v then some (sliceAt s i v.length) else none

def isDigitCh (c : Char) : Bool := '0' ≤ c && c ≤ '9'

/-- The `\d{1,2}%` alternative of `DISCOUNT_REGEX` at position `i`, with the
`(?!\w)` lookahead; the greedy `{1,2}` tries two digits before one. -/
def tryPct (s : Str) (i : Nat) : Option Str :=
  if (s.get? i).any isDigitCh && (s.get? (i + 1)).any isDigitCh &&
      decide (s.get? (i + 2) = some '%') && !(wordCharAt s (i + 3)) then
    some (sliceAt s i 3)
  else if (s.get? i).any isDigitCh && decide (s.get? (i + 1) = some '%') &&
      !(wordCharAt s (i + 2)) then
    some (sliceAt s i 2)
  else none

/-- A case-insensitive literal alternative of `DISCOUNT_REGEX` at position
`i`, with the `(?!\w)` lookahead. -/
def tryLit (s : Str) (i : Nat) (lit : Str) : Option Str :=
  if decide ((sliceAt s i lit.length).map pyLower = lit) && !(wordCharAt s (i + lit.length)) then
    some (sliceAt s i lit.length)
  else none

/-- `DISCOUNT_REGEX` (`(?<!\w)(\d{1,2}%|half off|bogo)(?!\w)`, IGNORECASE)
at position `i`: lookbehind, then the alternatives in the source's order. -/
def discountMatchAt (s : Str) (i : Nat) : Option Str :=
  if decide (i = 0) || !(wordCharAt s (i - 1)) then
    (tryPct s i) <|> (tryLit s i ("half off".toList)) <|> (tryLit s i ("bogo".toList))
  else none

/-- `DISCOUNT_REGEX.search(s)`: leftmost match. -/
def findDiscount (s : Str) : Option Str :=
  (List.range s.length).findSome? (discountMatchAt s)

/-- The character class `[A-Za-z ]` of `PRODUCT_REGEX`. -/
def isProductChar (c : Char) : Bool :=
  ('a' ≤ c && c ≤ 'z') || ('A' ≤ c && c ≤ 'Z') || c = ' '

/-- `PRODUCT_REGEX` (`(?:\bfor\s+)([A-Za-z ]+)`, case-sensitive) at position
`i`: word boundary, literal `for`, a greedy nonempty whitespace run `\s+`
(backtracking from the longest run down), then the greedy capture
`([A-Za-z ]+)`; returns `group(1)`. -/
def productMatchAt (s : Str) (i : Nat) : Option Str :=
  if (decide (i = 0) || !(wordCharAt s (i - 1))) &&
      decide (sliceAt s i 3 = 'f' :: 'o' :: 'r' :: []) then
    let rest := s.drop (i + 3)
    let wsMax := (rest.takeWhile isPySpace).length
    ((List.range wsMax).map fun j => wsMax - j).findSome? fun k =>
      let g := (rest.drop k).takeWhile isProductChar
      if g.isEmpty then none else some g
  else none

/-- `PRODUCT_REGEX.search(s)` followed by `.group(1).strip()`. -/
def findProduct (s : Str) : Option Str :=
  ((List.range s.length).findSome? (productMatchAt s)).map pyStrip

/-- The record returned by `extract_entities`. -/
structure Entities where
  cta : Option Str
  discount : Option Str
  product : Option Str
deriving DecidableEq, Repr

/-- `extract_entities` from `platform_agent.py`: three independent first-match
regex searches. -/
def extract_entities (s : Str) : Entities :=
  ⟨findCTA s, findDiscount s, findProduct s⟩

/-- The constraints dictionary consumed by `validate_text`; a missing key is
`none`.  The source reads the values with `constraints.get(...)`, treating a
missing `max_length_chars` (or a zero one) as no length constraint,
`allow_emojis` defaulting to `True` and `cta_required` defaulting to `False`.
The integer value is modelled as `Nat` (the spec requires
`max_length_chars > 0`). -/
structure Constraints where
  max_length_chars : Option Nat
  allow_emojis : Option Bool
  cta_required : Option Bool
deriving DecidableEq, Repr

/-- The record returned by `validate_text`. -/
structure ValidationResult where
  ok : Bool
  issues : List Issue
  repaired_text : Str
deriving DecidableEq, Repr

/-- Check 1 of `validate_text`: `if max_length and len(text) > max_length`,
truncate and strip trailing whitespace. -/
def lengthStep (c : Constraints) (text : Str) : List Issue × Str :=
  match c.max_length_chars with
  | some n =>
    if n ≠ 0 ∧ text.length > n then ([Issue.MAX_LENGTH_EXCEEDED], pyRstrip (text.take n))
    else ([], text)
  | none => ([], text)

/-- Check 2 of `validate_text`: `if not allow_emojis and EMOJI_REGEX.search(repaired)`,
strip every emoji-range character (`EMOJI_REGEX.sub("", repaired)`). -/
def emojiStep (c : Constraints) (s : Str) : List Issue × Str :=
  if !(c.allow_emojis.getD true) && s.any isEmojiChar then
    ([Issue.EMOJI_NOT_ALLOWED], s.filter fun ch => !(isEmojiChar ch))
  else ([], s)

/-- The literal repair suffix injected by check 3 of `validate_text`. -/
def ctaSuffix : Str := ". Get yours today.".toList

/-- Check 3 of `validate_text`: `if cta_required and not CTA_REGEX.search(repaired)`,
strip trailing punctuation and append the fixed suffix. -/
def ctaStep (c : Constraints) (s : Str) : List Issue × Str :=
  if c.cta_required.getD false && !(findCTA s).isSome then
    ([Issue.CTA_MISSING], pyRstripPunct s ++ ctaSuffix)
  else ([], s)

/-- Check 4 of `validate_text`: flag (never repair) any remaining profanity,
via `PROFANITY_LIST.intersection({w.lower().strip(punctuation) for w in repaired.split()})`. -/
def profanityStep (s : Str) : List Issue :=
  if (pySplit s).any (fun w => profaneB (cleanVal w)) then [Issue.PROFANITY_DETECTED] else []

/-- `validate_text` from `platform_agent.py`: the four sequential checks over
one working copy, `ok` true iff no issue was appended.  The `platform`
argument is accepted and ignored, as in the source. -/
def validate_text (text : Str) (platform : Str) (c : Constraints) : ValidationResult :=
  let s1 := lengthStep c text
  let s2 := emojiStep c s1.2
  let s3 := ctaStep c s2.2
  let i4 := profanityStep s3.2
  let issues := s1.1 ++ s2.1 ++ s3.1 ++ i4
  ⟨issues.isEmpty, issues, s3.2⟩

/-- Python `dict.fromkeys(l)` key order: deduplicate keeping the first
occurrence of each element. -/
def dedupKeepFirst (l : List Str) : List Str :=
  l.foldl (fun acc x => if x ∈ acc then acc else acc ++ [x]) []

/-- The strategy dictionary returned by the batched knowledge-graph lookup
(`get_platform_data_batch_cached`), restricted to the keys the modelled code
reads.  `constraints = none` models the falsy/absent `"constraints"` entry;
`none` in the two style fields models an absent key. -/
structure Strategy where
  constraints : Option Constraints
  preferred_styles : List Str
  audience_preferred_styles : Option (List Str)
  intent_required_styles : Option (List Str)

/-- Python truthiness of an optional string argument (absent or empty is
falsy). -/
def pyTruthyOptStr (o : Option Str) : Bool :=
  match o with
  | some s => !s.isEmpty
  | none => false

/-- The merge logic of `get_recommended_styles` from `kg_service.py`, with the
externally fetched strategy dictionary passed in: start from the platform's
preferred styles, bubble audience preferences to the front (dedup keeping the
first occurrence), then bubble intent requirements the same way, and return
the first 10. -/
def get_recommended_styles (audience intent : Option Str) (strategy : Strategy) : List Str :=
  let styles0 := strategy.preferred_styles
  let styles1 :=
    match strategy.audience_preferred_styles with
    | some ast => if pyTruthyOptStr audience then dedupKeepFirst (ast ++ styles0) else styles0
    | none => styles0
  let styles2 :=
    match strategy.intent_required_styles with
    | some ist => if pyTruthyOptStr intent then dedupKeepFirst (ist ++ styles1) else styles1
    | none => styles1
  styles2.take 10

/-- `get_default_constraints` from `kg_service.py`: the static fallback
constraint table. -/
def get_default_constraints (platform : Str) : Constraints :=
  let p := platform.map pyLower
  if p = "twitter".toList then ⟨some 280, some true, some false⟩
  else if p = "youtube".toList then ⟨some 5000, some true, some true⟩
  else if p = "pinterest".toList then ⟨some 500, some true, some false⟩
  else ⟨some 2000, some true, some false⟩

/-- A retrieved example document (text plus tone metadata). -/
structure ExampleDoc where
  text : Str
  tone : Str

/-- The parsed LLM output shape (`{platform, rewritten_text, explanation}`,
restricted to the keys the pipeline reads). -/
structure LlmOutput where
  rewritten_text : Str
  explanation : Str

/-- The outcome of `json.loads` on the LLM response: either the parsed
structured output or the raw response text (`JSONDecodeError` branch). -/
inductive LlmResponse where
  | parsed (out : LlmOutput)
  | raw (text : Str)

/-- `parse_llm_response` from `create_platform_chain`: on a parse failure fall
back to the stripped raw text with the fixed explanation; then
`llm_output.get("rewritten_text", "").strip() or input_text`. -/
def parse_llm_response (input_text : Str) (resp : LlmResponse) : LlmOutput × Str :=
  let out :=
    match resp with
    | .parsed o => o
    | .raw t => ⟨pyStrip t, "Model returned non-JSON, raw text forwarded.".toList⟩
  let rt := pyStrip out.rewritten_text
  (out, if rt.isEmpty then input_text else rt)

/-- The validation record exposed in the final result (after
`validation.pop("repaired_text")`). -/
structure ValidationOut where
  ok : Bool
  issues : List Issue
deriving DecidableEq, Repr

/-- The per-platform rewrite result record. -/
structure FinalResult where
  platform : Str
  rewritten_text : Str
  explanation : Str
  examples_used : List ExampleDoc
  validation : ValidationOut
  entities : Entities

/-- `validate_and_finalize` from `create_platform_chain`: validate and repair
the rewritten text, drop `repaired_text` from the validation record, and
extend its issues with the sanitize-stage issues — after `ok` was computed. -/
def validate_and_finalize (platform : Str) (constraints : Constraints) (rewritten_text : Str)
    (sanitize_issues : List Issue) (llm_explanation : Str) (examples_used : List ExampleDoc)
    (original_entities : Entities) : FinalResult :=
  let validation := validate_text rewritten_text platform constraints
  ⟨platform, validation.repaired_text, llm_explanation, examples_used,
   ⟨validation.ok, validation.issues ++ sanitize_issues⟩, original_entities⟩

/-- The external calls whose ordering claim C8 is about. -/
inductive ExternalCall where
  | retrieveExamples
  | llmInvoke
deriving DecidableEq, Repr

/-- The external collaborators of the pipeline, as oracles: the knowledge
graph's platform-existence check and batched strategy lookup, the vector-store
retrieval, and the LLM call (fed the sanitized input text, an abstraction of
the built prompt). -/
structure Env where
  platformExists : Str → Bool
  strategyFor : Str → Option Str → Option Str → Option Str → Strategy
  retrieval : Str → Str → Nat → List ExampleDoc
  llm : Str → LlmResponse

/-- `rewrite_for_platform` (that is, `create_platform_chain` followed by
`chain.invoke({"text": text})`): the unknown-platform guard raises before the
chain is built, so before any retrieval or LLM call; otherwise the chain runs
sanitize → extract entities → retrieve examples → LLM → parse → validate and
finalize.  The second component records which external retrieval/LLM calls
were performed. -/
def rewrite_for_platform (env : Env) (text platform : Str) (length_pref : Option Nat)
    (audience intent category : Option Str) (top_k : Nat) :
    Except Str FinalResult × List ExternalCall :=
  if !(env.platformExists platform) then
    (Except.error ("Unsupported platform".toList ++ platform), [])
  else
    let strategy := env.strategyFor platform audience intent category
    let constraints0 := strategy.constraints.getD (get_default_constraints platform)
    let constraints :=
      match length_pref, constraints0.max_length_chars with
      | some lp, some m =>
        if lp ≠ 0 then ⟨some (Nat.min lp m), constraints0.allow_emojis, constraints0.cta_required⟩
        else constraints0
      | _, _ => constraints0
    let sanitized := sanitize_text text
    let entities := extract_entities sanitized.1
    let examples := env.retrieval sanitized.1 platform top_k
    let resp := env.llm sanitized.1
    let parsed := parse_llm_response sanitized.1 resp
    let final := validate_and_finalize platform constraints parsed.2 sanitized.2
      parsed.1.explanation examples entities
    (Except.ok final, [ExternalCall.retrieveExamples, ExternalCall.llmInvoke])

theorem length_rstripWhile_le (p : Char → Bool) (s : Str) :
    (rstripWhile p s).length ≤ s.length := by
  unfold rstripWhile
  calc ((s.reverse.dropWhile p).reverse).length
      = (s.reverse.dropWhile p).length := List.length_reverse _
    _ ≤ s.reverse.length := (List.dropWhile_sublist p).length_le
    _ = s.length := List.length_reverse _

theorem mem_of_mem_rstripWhile {p : Char → Bool} {a : Char} {s : Str}
    (h : a ∈ rstripWhile p s) : a ∈ s := by
  unfold rstripWhile at h
  rw [List.mem_reverse] at h
  have := (List.dropWhile_sublist p).subset h
  rwa [List.mem_reverse] at this

theorem length_stripWhile_le (p : Char → Bool) (s : Str) :
    (stripWhile p s).length ≤ s.length :=
  le_trans (length_rstripWhile_le _ _) ((List.dropWhile_sublist p).length_le)

theorem lengthStep_le {c : Constraints} {text : Str} {N : Nat}
    (hN : c.max_length_chars = some N) (hN0 : N ≠ 0) :
    ((lengthStep c text).2).length ≤ N := by
  have hrw : lengthStep c text =
      if N ≠ 0 ∧ text.length > N then ([Issue.MAX_LENGTH_EXCEEDED], pyRstrip (text.take N))
      else ([], text) := by
    unfold lengthStep
    rw [hN]
  rw [hrw]
  by_cases hcond : N ≠ 0 ∧ text.length > N
  · rw [if_pos hcond]
    exact le_trans (length_rstripWhile_le _ _) (List.length_take_le _ _)
  · rw [if_neg hcond]
    have hle : ¬ text.length > N := fun hg => hcond ⟨hN0, hg⟩
    exact Nat.le_of_not_lt hle

theorem emojiStep_length_le (c : Constraints) (s : Str) :
    ((emojiStep c s).2).length ≤ s.length := by
  unfold emojiStep
  split
  · exact List.length_filter_le _ _
  · exact le_refl _

theorem ctaStep_eq_of_not_required {c : Constraints}
    (h : c.cta_required.getD false = false) (s : Str) : (ctaStep c s).2 = s := by
  unfold ctaStep
  rw [h]
  simp

/-- C1 (corrected, counterexample): the claim as stated is false.  With
`max_length_chars = 5` and `cta_required = True`, the input `"hello world"` is
truncated to `"hello"` but the CTA repair then appends `". Get yours today."`,
so the returned `repaired_text` has length 23 > 5. -/
theorem validate_text_length_cex :
    (⟨some 5, none, some true⟩ : Constraints).max_length_chars = some 5 ∧
    ¬ ((validate_text ("hello world".toList) ("instagram".toList)
        ⟨some 5, none, some true⟩).repaired_text.length ≤ 5) := by
  exact ⟨rfl, by decide⟩

/-- C1 (corrected, amended claim): for every text and every constraints dict
with `max_length_chars = N` (`N` a positive integer) in which the `cta_required`
constraint is absent or false — so the CTA-injection repair cannot fire — the
`repaired_text` returned by `validate_text` has length at most `N`. -/
theorem validate_text_length_le (text platform : Str) (c : Constraints) (N : Nat)
    (h1 : c.max_length_chars = some N) (h2 : N ≠ 0)
    (h3 : c.cta_required.getD false = false) :
    (validate_text text platform c).repaired_text.length ≤ N := by
  show ((ctaStep c (emojiStep c (lengthStep c text).2).2).2).length ≤ N
  rw [ctaStep_eq_of_not_required h3]
  exact le_trans (emojiStep_length_le _ _) (lengthStep_le h1 h2)

/-- Witness for the amended C1 theorem at a concrete input. -/
theorem validate_text_length_le_w :
    (⟨some 5, none, none⟩ : Constraints).max_length_chars = some 5 ∧ (5 : Nat) ≠ 0 ∧
    (⟨some 5, none, none⟩ : Constraints).cta_required.getD false = false ∧
    (validate_text ("hello world".toList) ("instagram".toList)
      ⟨some 5, none, none⟩).repaired_text.length ≤ 5 :=
  ⟨rfl, by decide, rfl,
   validate_text_length_le ("hello world".toList) ("instagram".toList) _ 5 rfl (by decide) rfl⟩

/-- C2 (corrected, counterexample): with platform styles `[a,b,c]`, audience
styles `[b,d]` and intent styles `[d,e]`, the merged result is NOT
`[e,d,b,a,c]` — the intent styles keep their own relative order at the front. -/
theorem merge_styles_cex :
    get_recommended_styles (some ("genz".toList)) (some ("purchase".toList))
      ⟨none, ["a".toList, "b".toList, "c".toList], some ["b".toList, "d".toList],
       some ["d".toList, "e".toList]⟩
      ≠ ["e".toList, "d".toList, "b".toList, "a".toList, "c".toList] := by decide

/-- C2 (corrected, amended claim): when platform-preferred styles are
`[a,b,c]`, audience-preferred styles `[b,d]` and intent-required styles
`[d,e]`, `get_recommended_styles` returns the single ranked list
`[d,e,b,a,c]` (intent styles bubble to the front keeping their own order,
then audience, then platform, duplicates kept at the most-prioritized
occurrence), truncated to at most 10 entries, with no style twice. -/
theorem merge_styles_amended :
    get_recommended_styles (some ("genz".toList)) (some ("purchase".toList))
      ⟨none, ["a".toList, "b".toList, "c".toList], some ["b".toList, "d".toList],
       some ["d".toList, "e".toList]⟩
      = ["d".toList, "e".toList, "b".toList, "a".toList, "c".toList] ∧
    (get_recommended_styles (some ("genz".toList)) (some ("purchase".toList))
      ⟨none, ["a".toList, "b".toList, "c".toList], some ["b".toList, "d".toList],
       some ["d".toList, "e".toList]⟩).length ≤ 10 ∧
    (get_recommended_styles (some ("genz".toList)) (some ("purchase".toList))
      ⟨none, ["a".toList, "b".toList, "c".toList], some ["b".toList, "d".toList],
       some ["d".toList, "e".toList]⟩).Nodup := by
  refine ⟨by decide, by decide, by decide⟩

/-- C4: `validate_text` computes `ok` as "the issues list of its four checks
is empty", and the pipeline's finalize step appends the sanitize-stage issues
to `validation.issues` after `ok` has been computed, without recomputing
`ok`. -/
theorem validate_ok_iff_empty_and_finalize (text platform : Str) (c : Constraints)
    (sanitize_issues : List Issue) (expl : Str) (exs : List ExampleDoc) (ents : Entities) :
    ((validate_text text platform c).ok = true ↔ (validate_text text platform c).issues = []) ∧
    (validate_and_finalize platform c text sanitize_issues expl exs ents).validation.ok
      = (validate_text text platform c).ok ∧
    (validate_and_finalize platform c text sanitize_issues expl exs ents).validation.issues
      = (validate_text text platform c).issues ++ sanitize_issues := by
  refine ⟨?_, rfl, rfl⟩
  show (_ : List Issue).isEmpty = true ↔ _
  exact List.isEmpty_iff

/-- C9: on `"Huge sale! Get 50% off for shoes. Buy now"`, `extract_entities`
returns `cta = "Get"` (the first case-insensitive whole-word CTA-verb match)
and `discount = "50%"`; and in general each of the three fields is the first
match of the corresponding regex in the text, or `None`. -/
theorem extract_entities_scenario :
    (extract_entities ("Huge sale! Get 50% off for shoes. Buy now".toList)).cta
      = some ("Get".toList) ∧
    (extract_entities ("Huge sale! Get 50% off for shoes. Buy now".toList)).discount
      = some ("50%".toList) ∧
    ∀ t : Str, extract_entities t = ⟨findCTA t, findDiscount t, findProduct t⟩ :=
  ⟨by decide, by decide, fun _ => rfl⟩

/-- An environment in which no platform exists and every oracle is inert. -/
def envNone : Env :=
  ⟨fun _ => false, fun _ _ _ _ => ⟨none, [], none, none⟩, fun _ _ _ => [],
   fun _ => LlmResponse.raw []⟩

/-- C8: if the requested platform is absent from the constraint source
(`platform_exists` is false), the pipeline fails with the unsupported-platform
error raised by `create_platform_chain`, and the list of performed external
retrieval/LLM calls is empty. -/
theorem rewrite_unknown_platform (env : Env) (text platform : Str)
    (length_pref : Option Nat) (audience intent category : Option Str) (top_k : Nat)
    (h : env.platformExists platform = false) :
    (rewrite_for_platform env text platform length_pref audience intent category top_k).1
      = Except.error ("Unsupported platform".toList ++ platform) ∧
    (rewrite_for_platform env text platform length_pref audience intent category top_k).2
      = [] := by
  simp [rewrite_for_platform, h]

/-- Witness for the C8 theorem at a concrete input. -/
theorem rewrite_unknown_platform_w :
    envNone.platformExists ("unknown_platform".toList) = false ∧
    (rewrite_for_platform envNone ("hi".toList) ("unknown_platform".toList)
        none none none none 3).1
      = Except.error ("Unsupported platform".toList ++ "unknown_platform".toList) ∧
    (rewrite_for_platform envNone ("hi".toList) ("unknown_platform".toList)
        none none none none 3).2 = [] :=
  ⟨rfl,
   rewrite_unknown_platform envNone ("hi".toList) ("unknown_platform".toList)
     none none none none 3 rfl⟩

/-- C3 (corrected, counterexample): the claim as stated is false.  The input
`"damn"` satisfies every premise of the claim (length within bounds, no emoji,
CTA not required) and `repaired_text` equals the input, but the fourth check
(`PROFANITY_DETECTED`, which the claim overlooks) makes `ok` false. -/
theorem validate_clean_pass_cex :
    ("damn".toList).length ≤ 100 ∧
    (⟨some 100, some true, some false⟩ : Constraints).allow_emojis.getD true = true ∧
    (⟨some 100, some true, some false⟩ : Constraints).cta_required.getD false = false ∧
    (validate_text ("damn".toList) ("instagram".toList)
      ⟨some 100, some true, some false⟩).repaired_text = "damn".toList ∧
    (validate_text ("damn".toList) ("instagram".toList)
      ⟨some 100, some true, some false⟩).ok = false := by
  refine ⟨by decide, rfl, rfl, by decide, by decide⟩

/-- C3 (corrected, amended claim): for every text and constraints such that
the text's length is at most `max_length_chars` (vacuous when absent), the
text contains no emoji-range character or `allow_emojis` is true, the text
contains a CTA verb or `cta_required` is false, AND no whitespace token of the
text lowercases-and-punctuation-strips into the profanity set:
`validate_text` returns `ok = true` and `repaired_text` equal to the input. -/
theorem validate_clean_pass (text platform : Str) (c : Constraints)
    (hlen : text.length ≤ c.max_length_chars.getD text.length)
    (hemo : c.allow_emojis.getD true = true ∨ text.any isEmojiChar = false)
    (hcta : c.cta_required.getD false = false ∨ (findCTA text).isSome = true)
    (hprof : (pySplit text).any (fun w => profaneB (cleanVal w)) = false) :
    (validate_text text platform c).ok = true ∧
    (validate_text text platform c).repaired_text = text := by
  have h1 : lengthStep c text = ([], text) := by
    unfold lengthStep
    cases hm : c.max_length_chars with
    | none => rfl
    | some n =>
      rw [hm] at hlen
      simp only [Option.getD_some] at hlen
      show (if n ≠ 0 ∧ text.length > n then
          ([Issue.MAX_LENGTH_EXCEEDED], pyRstrip (text.take n)) else ([], text)) = ([], text)
      rw [if_neg]
      rintro ⟨-, hgt⟩
      omega
  have h2 : emojiStep c text = ([], text) := by
    unfold emojiStep
    rcases hemo with h | h
    · rw [h]
      simp
    · rw [h]
      simp
  have h3 : ctaStep c text = ([], text) := by
    unfold ctaStep
    rcases hcta with h | h
    · rw [h]
      simp
    · rw [h]
      simp
  have h4 : profanityStep text = [] := by
    unfold profanityStep
    rw [hprof]
    simp
  constructor
  · show ((lengthStep c text).1 ++ (emojiStep c (lengthStep c text).2).1 ++
      (ctaStep c (emojiStep c (lengthStep c text).2).2).1 ++
      profanityStep (ctaStep c (emojiStep c (lengthStep c text).2).2).2).isEmpty = true
    rw [h1]
    simp only []
    rw [h2]
    simp only []
    rw [h3]
    simp only []
    rw [h4]
    rfl
  · show (ctaStep c (emojiStep c (lengthStep c text).2).2).2 = text
    rw [h1]
    simp only []
    rw [h2]
    simp only []
    rw [h3]

/-- Witness for the amended C3 theorem at a concrete input. -/
theorem validate_clean_pass_w :
    ("Buy now".toList).length ≤
      (⟨some 100, some false, some true⟩ : Constraints).max_length_chars.getD
        ("Buy now".toList).length ∧
    ((⟨some 100, some false, some true⟩ : Constraints).allow_emojis.getD true = true ∨
      ("Buy now".toList).any isEmojiChar = false) ∧
    ((⟨some 100, some false, some true⟩ : Constraints).cta_required.getD false = false ∨
      (findCTA ("Buy now".toList)).isSome = true) ∧
    (pySplit ("Buy now".toList)).any (fun w => profaneB (cleanVal w)) = false ∧
    (validate_text ("Buy now".toList) ("instagram".toList)
        ⟨some 100, some false, some true⟩).ok = true ∧
    (validate_text ("Buy now".toList) ("instagram".toList)
        ⟨some 100, some false, some true⟩).repaired_text = "Buy now".toList :=
  ⟨by decide, by decide, by decide, by decide,
   (validate_clean_pass ("Buy now".toList) ("instagram".toList) _
     (by decide) (by decide) (by decide) (by decide)).1,
   (validate_clean_pass ("Buy now".toList) ("instagram".toList) _
     (by decide) (by decide) (by decide) (by decide)).2⟩

theorem ctaStep_all {c : Constraints} {s : Str} {q : Char → Bool}
    (hs : s.all q = true) (hsuf : ctaSuffix.all q = true) :
    ((ctaStep c s).2).all q = true := by
  unfold ctaStep
  split
  · rw [List.all_append, hsuf]
    simp only [Bool.and_true]
    rw [List.all_eq_true] at hs ⊢
    exact fun a ha => hs a (mem_of_mem_rstripWhile ha)
  · exact hs

/-- C7: for every text and constraints with `allow_emojis = False`, the
returned `repaired_text` contains no character in the emoji code-point range
U+263A..U+1F645, and if the working text after any truncation contained such a
character then `EMOJI_NOT_ALLOWED` appears in the issues list. -/
theorem validate_emoji_stripped (text platform : Str) (c : Constraints)
    (h : c.allow_emojis.getD true = false) :
    ((validate_text text platform c).repaired_text.all fun ch => !(isEmojiChar ch)) = true ∧
    ((lengthStep c text).2.any isEmojiChar = true →
      Issue.EMOJI_NOT_ALLOWED ∈ (validate_text text platform c).issues) := by
  by_cases ha : (lengthStep c text).2.any isEmojiChar = true
  · have h2 : emojiStep c (lengthStep c text).2 =
        ([Issue.EMOJI_NOT_ALLOWED], (lengthStep c text).2.filter fun ch => !(isEmojiChar ch)) := by
      unfold emojiStep
      rw [h, ha]
      rfl
    constructor
    · show ((ctaStep c (emojiStep c (lengthStep c text).2).2).2.all
        fun ch => !(isEmojiChar ch)) = true
      rw [h2]
      apply ctaStep_all
      · rw [List.all_eq_true]
        intro a hamem
        rw [List.mem_filter] at hamem
        exact hamem.2
      · decide
    · intro _
      show Issue.EMOJI_NOT_ALLOWED ∈ ((lengthStep c text).1 ++
        (emojiStep c (lengthStep c text).2).1 ++
        (ctaStep c (emojiStep c (lengthStep c text).2).2).1 ++
        profanityStep (ctaStep c (emojiStep c (lengthStep c text).2).2).2)
      rw [h2]
      simp
  · have ha' : (lengthStep c text).2.any isEmojiChar = false := by
      cases hx : (lengthStep c text).2.any isEmojiChar
      · rfl
      · exact absurd hx ha
    have h2 : emojiStep c (lengthStep c text).2 = ([], (lengthStep c text).2) := by
      unfold emojiStep
      rw [h, ha']
      rfl
    constructor
    · show ((ctaStep c (emojiStep c (lengthStep c text).2).2).2.all
        fun ch => !(isEmojiChar ch)) = true
      rw [h2]
      apply ctaStep_all
      · rw [List.all_eq_true]
        intro a hamem
        have := List.any_eq_false.mp ha' a hamem
        simp [this]
      · decide
    · intro hcontra
      exact absurd hcontra ha

/-- Witness for the C7 theorem at a concrete input. -/
theorem validate_emoji_stripped_w :
    (⟨none, some false, none⟩ : Constraints).allow_emojis.getD true = false ∧
    (((validate_text ('H' :: 'i' :: [Char.ofNat 0x263a]) ("instagram".toList)
        ⟨none, some false, none⟩).repaired_text.all fun ch => !(isEmojiChar ch)) = true ∧
      ((lengthStep (⟨none, some false, none⟩ : Constraints)
          ('H' :: 'i' :: [Char.ofNat 0x263a])).2.any isEmojiChar = true →
        Issue.EMOJI_NOT_ALLOWED ∈ (validate_text ('H' :: 'i' :: [Char.ofNat 0x263a])
          ("instagram".toList) ⟨none, some false, none⟩).issues)) :=
  ⟨rfl, validate_emoji_stripped ('H' :: 'i' :: [Char.ofNat 0x263a]) ("instagram".toList)
    ⟨none, some false, none⟩ rfl⟩

theorem findCTA_isSome_of_match {s : Str} {i : Nat} {v : Str} (hi : i < s.length)
    (hv : v ∈ ctaVerbs) (hm : ctaMatchAt s i v = true) : (findCTA s).isSome = true := by
  unfold findCTA
  cases hfs : ((List.range s.length).findSome? fun i =>
      ctaVerbs.findSome? fun v =>
        if ctaMatchAt s i v then some (sliceAt s i v.length) else none) with
  | some x => rfl
  | none =>
    exfalso
    have h1 := List.findSome?_eq_none_iff.mp hfs i (List.mem_range.mpr hi)
    have h2 := List.findSome?_eq_none_iff.mp h1 v hv
    rw [if_pos hm] at h2
    exact Option.noConfusion h2

theorem ctaMatch_in_suffix (P : Str) :
    ctaMatchAt (P ++ ctaSuffix) (P.length + 2) ("get".toList) = true := by
  have hslice : (sliceAt (P ++ ctaSuffix) (P.length + 2)
      (("get".toList : Str).length)).map pyLower = "get".toList := by
    show (sliceAt (P ++ ctaSuffix) (P.length + 2) 3).map pyLower = "get".toList
    unfold sliceAt
    rw [List.drop_append 2]
    decide
  have hget1 : wordCharAt (P ++ ctaSuffix) (P.length + 2 - 1) = false := by
    unfold wordCharAt
    have he : P.length + 2 - 1 = P.length + 1 := by omega
    rw [he, List.get?_append_right (by omega)]
    have he2 : P.length + 1 - P.length = 1 := by omega
    rw [he2]
    rfl
  have hget5 : wordCharAt (P ++ ctaSuffix) (P.length + 2 + ("get".toList : Str).length)
      = false := by
    unfold wordCharAt
    have he : P.length + 2 + ("get".toList : Str).length = P.length + 5 := by
      show P.length + 2 + 3 = P.length + 5
      omega
    rw [he, List.get?_append_right (by omega)]
    have he2 : P.length + 5 - P.length = 5 := by omega
    rw [he2]
    rfl
  unfold ctaMatchAt
  rw [Bool.and_eq_true, Bool.and_eq_true]
  refine ⟨⟨?_, ?_⟩, ?_⟩
  · rw [decide_eq_true_eq]
    exact hslice
  · rw [Bool.or_eq_true]
    right
    rw [hget1]
    rfl
  · rw [hget5]
    rfl

/-- C10: for every text and every constraints dict with `cta_required` true,
the `repaired_text` returned by `validate_text` contains a CTA-verb match:
either the working text already contained one, or the injected literal suffix
`". Get yours today."` supplies the verb `Get` surrounded by word boundaries,
so the repair always re-establishes the CTA constraint. -/
theorem validate_cta_established (text platform : Str) (c : Constraints)
    (h : c.cta_required.getD false = true) :
    (findCTA (validate_text text platform c).repaired_text).isSome = true := by
  show (findCTA (ctaStep c (emojiStep c (lengthStep c text).2).2).2).isSome = true
  cases hs : (findCTA (emojiStep c (lengthStep c text).2).2).isSome with
  | true =>
    have h3 : ctaStep c (emojiStep c (lengthStep c text).2).2 =
        ([], (emojiStep c (lengthStep c text).2).2) := by
      unfold ctaStep
      rw [h, hs]
      rfl
    rw [h3]
    exact hs
  | false =>
    have h3 : ctaStep c (emojiStep c (lengthStep c text).2).2 =
        ([Issue.CTA_MISSING],
         pyRstripPunct (emojiStep c (lengthStep c text).2).2 ++ ctaSuffix) := by
      unfold ctaStep
      rw [h, hs]
      rfl
    rw [h3]
    apply findCTA_isSome_of_match
      (i := (pyRstripPunct (emojiStep c (lengthStep c text).2).2).length + 2)
      (v := "get".toList)
    · rw [List.length_append]
      have h18 : (ctaSuffix : Str).length = 18 := rfl
      omega
    · decide
    · exact ctaMatch_in_suffix _

/-- Witness for the C10 theorem at a concrete input. -/
theorem validate_cta_established_w :
    (⟨none, none, some true⟩ : Constraints).cta_required.getD false = true ∧
    (findCTA (validate_text ("hi".toList) ("instagram".toList)
      ⟨none, none, some true⟩).repaired_text).isSome = true :=
  ⟨rfl, validate_cta_established ("hi".toList) ("instagram".toList)
    ⟨none, none, some true⟩ rfl⟩


theorem bool_false_of_not_true {b : Bool} (h : ¬ b = true) : b = false := by
  cases b
  · rfl
  · exact absurd rfl h

theorem pySplit_words : ∀ (s : Str), ∀ w ∈ pySplit s, w ≠ [] ∧ ∀ c ∈ w, isPySpace c = false := by
  intro s
  induction s with
  | nil => intro w hw; simp [pySplit] at hw
  | cons c s ih =>
    intro w hw
    cases s with
    | nil =>
      simp only [pySplit] at hw
      split at hw
      · simp at hw
      · next hc =>
        simp only [List.mem_singleton] at hw
        subst hw
        refine ⟨by simp, ?_⟩
        intro x hx
        simp only [List.mem_singleton] at hx
        subst hx
        exact bool_false_of_not_true hc
    | cons d s' =>
      simp only [pySplit] at hw
      split at hw
      · exact ih w hw
      · next hc =>
        split at hw
        · rcases List.mem_cons.mp hw with rfl | hw
          · refine ⟨by simp, ?_⟩
            intro x hx
            simp only [List.mem_singleton] at hx
            subst hx
            exact bool_false_of_not_true hc
          · exact ih w hw
        · cases hr : pySplit (d :: s') with
          | nil =>
            rw [hr] at hw
            simp only [consHead, List.mem_singleton] at hw
            subst hw
            refine ⟨by simp, ?_⟩
            intro x hx
            simp only [List.mem_singleton] at hx
            subst hx
            exact bool_false_of_not_true hc
          | cons w0 ws0 =>
            rw [hr] at hw
            simp only [consHead] at hw
            rcases List.mem_cons.mp hw with rfl | hw
            · have h0 := ih w0 (hr ▸ List.mem_cons_self w0 ws0)
              refine ⟨by simp, ?_⟩
              intro x hx
              rcases List.mem_cons.mp hx with rfl | hx
              · exact bool_false_of_not_true hc
              · exact h0.2 x hx
            · exact ih w (hr ▸ List.mem_cons_of_mem w0 hw)

theorem pySplit_single : ∀ (w : Str), w ≠ [] → (∀ c ∈ w, isPySpace c = false) →
    pySplit w = [w] := by
  intro w
  induction w with
  | nil => intro h; exact absurd rfl h
  | cons c w' ih =>
    intro _ hchars
    have hc : isPySpace c = false := hchars c (List.mem_cons_self _ _)
    cases w' with
    | nil => simp [pySplit, hc]
    | cons d w'' =>
      have hd : isPySpace d = false :=
        hchars d (List.mem_cons_of_mem _ (List.mem_cons_self _ _))
      simp only [pySplit, hc, hd, Bool.false_eq_true, if_false]
      rw [ih (by simp) fun x hx => hchars x (List.mem_cons_of_mem _ hx)]
      rfl

theorem pySplit_word_cons : ∀ (w : Str) (s : Str), w ≠ [] →
    (∀ c ∈ w, isPySpace c = false) → pySplit (w ++ ' ' :: s) = w :: pySplit s := by
  intro w
  induction w with
  | nil => intro s h; exact absurd rfl h
  | cons c w' ih =>
    intro s _ hchars
    have hc : isPySpace c = false := hchars c (List.mem_cons_self _ _)
    cases w' with
    | nil =>
      show pySplit (c :: ' ' :: s) = [c] :: pySplit s
      simp only [pySplit, hc, Bool.false_eq_true, if_false]
      have hsp : isPySpace ' ' = true := by decide
      rw [if_pos hsp]
      cases s with
      | nil => simp [pySplit, hsp]
      | cons e s' =>
        simp only [pySplit, hsp, if_true]
    | cons d w'' =>
      have hd : isPySpace d = false :=
        hchars d (List.mem_cons_of_mem _ (List.mem_cons_self _ _))
      show pySplit (c :: ((d :: w'') ++ ' ' :: s)) = (c :: d :: w'') :: pySplit s
      rw [List.cons_append]
      simp only [pySplit, hc, hd, Bool.false_eq_true, if_false]
      have := ih s (by simp) fun x hx => hchars x (List.mem_cons_of_mem _ hx)
      rw [List.cons_append] at this
      rw [this]
      rfl

theorem pySplit_joinSp : ∀ (ws : List Str),
    (∀ w ∈ ws, w ≠ [] ∧ ∀ c ∈ w, isPySpace c = false) → pySplit (joinSp ws) = ws := by
  intro ws
  induction ws with
  | nil => intro _; rfl
  | cons w ws ih =>
    intro h
    cases ws with
    | nil =>
      show pySplit w = [w]
      exact pySplit_single w (h w (List.mem_cons_self _ _)).1 (h w (List.mem_cons_self _ _)).2
    | cons w2 ws2 =>
      show pySplit (w ++ ' ' :: joinSp (w2 :: ws2)) = w :: w2 :: ws2
      rw [pySplit_word_cons w _ (h w (List.mem_cons_self _ _)).1
        (h w (List.mem_cons_self _ _)).2]
      rw [ih fun u hu => h u (List.mem_cons_of_mem _ hu)]

theorem pySplit_dropWhile_space : ∀ (s : Str),
    pySplit (s.dropWhile isPySpace) = pySplit s := by
  intro s
  induction s with
  | nil => rfl
  | cons c s ih =>
    rw [List.dropWhile_cons]
    by_cases hc : isPySpace c = true
    · rw [if_pos hc, ih]
      cases s with
      | nil => simp [pySplit, hc]
      | cons d s' => simp [pySplit, hc]
    · rw [if_neg hc]

theorem pySplit_all_space : ∀ (t : Str), (∀ c ∈ t, isPySpace c = true) →
    pySplit t = [] := by
  intro t
  induction t with
  | nil => intro _; rfl
  | cons c t ih =>
    intro h
    have hc : isPySpace c = true := h c (List.mem_cons_self _ _)
    cases t with
    | nil => simp [pySplit, hc]
    | cons d t' =>
      simp only [pySplit, hc, if_true]
      exact ih fun x hx => h x (List.mem_cons_of_mem _ hx)

theorem pySplit_append_spaces : ∀ (s t : Str), (∀ c ∈ t, isPySpace c = true) →
    pySplit (s ++ t) = pySplit s := by
  intro s
  induction s with
  | nil =>
    intro t h
    rw [List.nil_append]
    exact pySplit_all_space t h
  | cons c s ih =>
    intro t h
    cases s with
    | nil =>
      show pySplit (c :: t) = pySplit [c]
      cases t with
      | nil => rfl
      | cons d t' =>
        have hd : isPySpace d = true := h d (List.mem_cons_self _ _)
        by_cases hc : isPySpace c = true
        · simp only [pySplit, hc, if_true]
          exact pySplit_all_space (d :: t') h
        · have hc' : isPySpace c = false := bool_false_of_not_true hc
          simp only [pySplit, hc', Bool.false_eq_true, if_false, hd, if_true]
          rw [pySplit_all_space (d :: t') h]
    | cons e s' =>
      show pySplit (c :: ((e :: s') ++ t)) = pySplit (c :: e :: s')
      rw [List.cons_append]
      have ihe := ih t h
      rw [List.cons_append] at ihe
      simp only [pySplit]
      rw [ihe]

theorem pySplit_rstrip_space (s : Str) :
    pySplit (rstripWhile isPySpace s) = pySplit s := by
  have hdecomp : s = rstripWhile isPySpace s ++ (s.reverse.takeWhile isPySpace).reverse := by
    unfold rstripWhile
    calc s = s.reverse.reverse := (List.reverse_reverse s).symm
    _ = ((s.reverse.takeWhile isPySpace) ++ (s.reverse.dropWhile isPySpace)).reverse := by
          rw [List.takeWhile_append_dropWhile]
    _ = (s.reverse.dropWhile isPySpace).reverse ++ (s.reverse.takeWhile isPySpace).reverse := by
          rw [List.reverse_append]
  conv_rhs => rw [hdecomp]
  rw [pySplit_append_spaces]
  intro x hx
  rw [List.mem_reverse] at hx
  exact List.mem_takeWhile_imp hx

theorem pySplit_pyStrip (s : Str) : pySplit (pyStrip s) = pySplit s := by
  unfold pyStrip stripWhile lstripWhile
  rw [pySplit_rstrip_space, pySplit_dropWhile_space]

theorem length_cleanSan_mask_le (c : Char) (k : Nat) :
    (cleanSan (c :: List.replicate k '*')).length ≤ 1 := by
  unfold cleanSan
  rw [List.length_map]
  unfold pyStripPunct stripWhile lstripWhile rstripWhile
  by_cases hp : isPunct c = true
  · have h1 : (c :: List.replicate k '*').dropWhile isPunct = [] := by
      rw [List.dropWhile_eq_nil_iff]
      intro x hx
      rcases List.mem_cons.mp hx with rfl | hx
      · exact hp
      · rw [List.mem_replicate] at hx
        rw [hx.2]
        decide
    rw [h1]
    simp
  · have hp' : isPunct c = false := bool_false_of_not_true hp
    have h1 : (c :: List.replicate k '*').dropWhile isPunct = c :: List.replicate k '*' := by
      rw [List.dropWhile_cons, hp']
      simp
    rw [h1]
    have h2 : (List.replicate k '*').dropWhile isPunct = [] := by
      rw [List.dropWhile_eq_nil_iff]
      intro x hx
      rw [List.mem_replicate] at hx
      rw [hx.2]
      decide
    simp [List.reverse_cons, List.dropWhile_append, h2, List.dropWhile_cons, hp']

theorem profaneB_eq_false_of_short {s : Str} (h : s.length ≤ 1) : profaneB s = false := by
  unfold profaneB
  rw [decide_eq_false_iff_not]
  intro hmem
  simp only [PROFANITY_LIST, List.mem_cons, List.not_mem_nil, or_false] at hmem
  rcases hmem with rfl | rfl | rfl
  · exact absurd h (by decide)
  · exact absurd h (by decide)
  · exact absurd h (by decide)

theorem profaneB_cleanSan_maskWord {w : Str} (h : w ≠ []) :
    profaneB (cleanSan (maskWord w)) = false := by
  cases w with
  | nil => exact absurd rfl h
  | cons c rest =>
    show profaneB (cleanSan (c :: List.replicate (Nat.max rest.length 1) '*')) = false
    exact profaneB_eq_false_of_short (length_cleanSan_mask_le c _)

theorem length_ge_of_flagged {w : Str} (h : profaneB (cleanSan w) = true) : 4 ≤ w.length := by
  unfold profaneB at h
  have hmem := of_decide_eq_true h
  have h4 : (cleanSan w).length = 4 := by
    simp only [PROFANITY_LIST, List.mem_cons, List.not_mem_nil, or_false] at hmem
    rcases hmem with he | he | he <;> rw [he] <;> decide
  have hle : (cleanSan w).length ≤ w.length := by
    unfold cleanSan
    rw [List.length_map]
    exact length_stripWhile_le _ _
  omega

theorem sanitizeWord_props {w : Str} (h1 : w ≠ []) (h2 : ∀ c ∈ w, isPySpace c = false) :
    sanitizeWord w ≠ [] ∧ ∀ c ∈ sanitizeWord w, isPySpace c = false := by
  unfold sanitizeWord
  split
  · cases w with
    | nil => exact absurd rfl h1
    | cons c rest =>
      refine ⟨by simp [maskWord], ?_⟩
      intro x hx
      simp only [maskWord, List.mem_cons] at hx
      rcases hx with rfl | hx
      · exact h2 _ (List.mem_cons_self _ _)
      · rw [List.mem_replicate] at hx
        rw [hx.2]
        decide
  · exact ⟨h1, h2⟩

theorem sanitizePass_fst : ∀ (ws : List Str), (sanitizePass ws).1 = ws.map sanitizeWord := by
  intro ws
  induction ws with
  | nil => rfl
  | cons w ws ih =>
    simp only [sanitizePass, List.map_cons]
    by_cases hf : profaneB (cleanSan w) = true
    · rw [if_pos hf]
      show maskWord w :: (sanitizePass ws).1 = sanitizeWord w :: ws.map sanitizeWord
      rw [ih]
      unfold sanitizeWord
      rw [if_pos hf]
    · rw [if_neg hf]
      show w :: (sanitizePass ws).1 = sanitizeWord w :: ws.map sanitizeWord
      rw [ih]
      unfold sanitizeWord
      rw [if_neg hf]

theorem sanitizePass_issues : ∀ (ws : List Str),
    (sanitizePass ws).2
      = List.replicate (ws.countP fun u => profaneB (cleanSan u)) Issue.PROFANITY_MASKED := by
  intro ws
  induction ws with
  | nil => rfl
  | cons w ws ih =>
    simp only [sanitizePass, List.countP_cons]
    by_cases hf : profaneB (cleanSan w) = true
    · rw [if_pos hf]
      show Issue.PROFANITY_MASKED :: (sanitizePass ws).2 = _
      rw [ih]
      simp [hf, List.replicate_succ]
    · rw [if_neg hf]
      show (sanitizePass ws).2 = _
      rw [ih]
      have hf' : profaneB (cleanSan w) = false := bool_false_of_not_true hf
      simp [hf']

/-- C5: sanitization is idempotent with respect to issue detection — applying
`sanitize_text` to the sanitized output of `sanitize_text t` yields an empty
issues list (so no `PROFANITY_MASKED` issue): masked words are never
re-flagged as profane. -/
theorem sanitize_idempotent_issues (t : Str) :
    (sanitize_text ((sanitize_text t).1)).2 = [] := by
  have h1 : (sanitize_text t).1 = joinSp ((pySplit (pyStrip t)).map sanitizeWord) := by
    show joinSp (sanitizePass (pySplit (pyStrip t))).1 = _
    rw [sanitizePass_fst]
  have hprops : ∀ w ∈ (pySplit (pyStrip t)).map sanitizeWord,
      w ≠ [] ∧ ∀ c ∈ w, isPySpace c = false := by
    intro w hw
    rcases List.mem_map.mp hw with ⟨u, hu, rfl⟩
    have hu2 := pySplit_words _ u hu
    exact sanitizeWord_props hu2.1 hu2.2
  show (sanitizePass (pySplit (pyStrip ((sanitize_text t).1)))).2 = []
  rw [h1, pySplit_pyStrip, pySplit_joinSp _ hprops, sanitizePass_issues]
  have hcount : ((pySplit (pyStrip t)).map sanitizeWord).countP
      (fun u => profaneB (cleanSan u)) = 0 := by
    rw [List.countP_eq_zero]
    intro w hw
    rcases List.mem_map.mp hw with ⟨u, hu, rfl⟩
    intro hcontra
    by_cases hf : profaneB (cleanSan u) = true
    · rw [show sanitizeWord u = maskWord u from by unfold sanitizeWord; rw [if_pos hf]]
        at hcontra
      rw [profaneB_cleanSan_maskWord (pySplit_words _ u hu).1] at hcontra
      exact Bool.false_ne_true hcontra
    · rw [show sanitizeWord u = u from by unfold sanitizeWord; rw [if_neg hf]] at hcontra
      exact hf hcontra
  rw [hcount]
  rfl

/-- C6: for every text `t` and every index `i` at which the whitespace token
`w` of `t` strips-and-lowercases into the profanity set, `sanitize_text`
replaces that token by its first character followed by asterisks padding to
the original token's length (minimum one asterisk, so the masked token's
length equals the original's), appends `PROFANITY_MASKED` once per masked
word, and the masked token's punctuation-stripped lowercase form is no longer
in the profanity set. -/
theorem sanitize_masks_profane (t : Str) (i : Nat) (w : Str)
    (hw : (pySplit (pyStrip t)).get? i = some w)
    (hp : profaneB (cleanSan w) = true) :
    (sanitizePass (pySplit (pyStrip t))).1.get? i
      = some (w.take 1 ++ List.replicate (Nat.max (w.length - 1) 1) '*') ∧
    (maskWord w).length = w.length ∧
    profaneB (cleanSan (maskWord w)) = false ∧
    (sanitize_text t).2
      = List.replicate ((pySplit (pyStrip t)).countP fun u => profaneB (cleanSan u))
          Issue.PROFANITY_MASKED := by
  have hwne : w ≠ [] := by
    intro hnil
    subst hnil
    exact absurd hp (by decide)
  have hlen4 := length_ge_of_flagged hp
  obtain ⟨c, rest, rfl⟩ : ∃ c rest, w = c :: rest := by
    cases w with
    | nil => exact absurd rfl hwne
    | cons c rest => exact ⟨c, rest, rfl⟩
  refine ⟨?_, ?_, profaneB_cleanSan_maskWord hwne, ?_⟩
  · rw [sanitizePass_fst, List.get?_map, hw, Option.map_some']
    simp only [sanitizeWord, hp, if_true, maskWord, List.length_cons, Nat.succ_sub_one]
    rfl
  · show (c :: List.replicate (Nat.max rest.length 1) '*').length = (c :: rest).length
    simp only [List.length_cons, List.length_replicate]
    simp only [List.length_cons] at hlen4
    show (if rest.length ≤ 1 then 1 else rest.length) + 1 = rest.length + 1
    split <;> omega
  · show (sanitizePass (pySplit (pyStrip t))).2 = _
    exact sanitizePass_issues _

/-- Witness for the C6 theorem at a concrete input. -/
theorem sanitize_masks_profane_w :
    (pySplit (pyStrip ("This is damn bad".toList))).get? 2 = some ("damn".toList) ∧
    profaneB (cleanSan ("damn".toList)) = true ∧
    ((sanitizePass (pySplit (pyStrip ("This is damn bad".toList)))).1.get? 2
      = some (("damn".toList).take 1 ++
          List.replicate (Nat.max (("damn".toList).length - 1) 1) '*') ∧
     (maskWord ("damn".toList)).length = ("damn".toList).length ∧
     profaneB (cleanSan (maskWord ("damn".toList))) = false ∧
     (sanitize_text ("This is damn bad".toList)).2
       = List.replicate ((pySplit (pyStrip ("This is damn bad".toList))).countP
           fun u => profaneB (cleanSan u)) Issue.PROFANITY_MASKED) :=
  ⟨by decide, by decide, sanitize_masks_profane _ 2 _ (by decide) (by decide)⟩
